import Mathlib

/-!
Verification of the case-identity / dual-store synchronization engine of the
akiyama-order service.

The JavaScript source is shallowly embedded: Firestore / Supabase tables
become Lean lists of row structures, the asynchronous store calls become pure
state-passing functions, JS numbers become `Nat` (all quantities involved are
small non-negative integers), JS strings become `String`, and nullable /
optional JS values become `Option`.  ISO timestamp strings are modelled by
their underlying epoch-milliseconds `Nat` (only ever copied, never parsed).
-/

namespace AkiyamaOrder

/-! ## Hexadecimal rendering of management-number codes

Embeds `next.toString(16).toUpperCase().padStart(digits, "0")` from
`afterProcess.js` (`ensureManagementNo7`) and `part_003`
(`ensureManagementNo`).  `toString(16)` is modelled by `toHex` (base-16
digit expansion, most significant first, uppercase digits directly since the
code immediately upper-cases), and `padStart` by `padStartZero`.
-/

/-- Uppercase hexadecimal digit character for a value `0 ≤ d < 16`. -/
def hexChar : Nat → Char
  | 0 => '0' | 1 => '1' | 2 => '2' | 3 => '3'
  | 4 => '4' | 5 => '5' | 6 => '6' | 7 => '7'
  | 8 => '8' | 9 => '9' | 10 => 'A' | 11 => 'B'
  | 12 => 'C' | 13 => 'D' | 14 => 'E' | 15 => 'F'
  | _ => '0'

/-- Numeric value of an uppercase hexadecimal digit character (0 otherwise). -/
def hexVal (c : Char) : Nat :=
  if '0' ≤ c ∧ c ≤ '9' then c.toNat - 48
  else if 'A' ≤ c ∧ c ≤ 'F' then c.toNat - 55
  else 0

/-- Base-16 digit expansion, most significant digit first.  The first
argument is structural fuel (any value `> n` gives the exact expansion). -/
def toHexAux : Nat → Nat → List Char
  | 0, _ => []
  | fuel + 1, n =>
    if n < 16 then [hexChar n]
    else toHexAux fuel (n / 16) ++ [hexChar (n % 16)]

/-- Embeds `n.toString(16).toUpperCase()` for a JS number holding a small natural. -/
def toHex (n : Nat) : List Char := toHexAux (n + 1) n

/-- Embeds `String.prototype.padStart(w, "0")` on a character list. -/
def padStartZero (w : Nat) (l : List Char) : List Char :=
  List.replicate (w - l.length) '0' ++ l

/-- The code string returned by the allocators:
`next.toString(16).toUpperCase().padStart(digits, "0")`. -/
def renderCode (digits n : Nat) : String := ⟨padStartZero digits (toHex n)⟩

/-- Decoding a code as hexadecimal (spec §8: "decoded-as-hex values"). -/
def decodeHexL (l : List Char) : Nat := l.foldl (fun a c => 16 * a + hexVal c) 0

/-- Decoding a code string as hexadecimal. -/
def decodeHex (s : String) : Nat := decodeHexL s.data

theorem hexVal_hexChar : ∀ d, d < 16 → hexVal (hexChar d) = d := by decide

theorem decodeHexL_append_singleton (l : List Char) (c : Char) :
    decodeHexL (l ++ [c]) = 16 * decodeHexL l + hexVal c := by
  simp [decodeHexL, List.foldl_append]

theorem toHexAux_decode : ∀ fuel n, n < fuel → decodeHexL (toHexAux fuel n) = n := by
  intro fuel
  induction fuel with
  | zero => intro n h; omega
  | succ f ih =>
    intro n h
    by_cases h16 : n < 16
    · simp [toHexAux, h16, decodeHexL, hexVal_hexChar n h16]
    · have hn : 16 ≤ n := Nat.le_of_not_lt h16
      have hdiv : n / 16 < f := by
        have h1 : n / 16 < n := Nat.div_lt_self (by omega) (by omega)
        omega
      simp only [toHexAux, if_neg h16]
      rw [decodeHexL_append_singleton, ih _ hdiv, hexVal_hexChar _ (Nat.mod_lt _ (by omega))]
      omega

theorem toHex_decode (n : Nat) : decodeHexL (toHex n) = n :=
  toHexAux_decode (n + 1) n (Nat.lt_succ_self n)

theorem toHexAux_length : ∀ fuel n w, n < fuel → n < 16 ^ w → 0 < w →
    (toHexAux fuel n).length ≤ w := by
  intro fuel
  induction fuel with
  | zero => intro n w h; omega
  | succ f ih =>
    intro n w h hw h0
    by_cases h16 : n < 16
    · simp [toHexAux, h16]; omega
    · have hn : 16 ≤ n := Nat.le_of_not_lt h16
      have hw2 : 2 ≤ w := by
        rcases Nat.lt_or_ge w 2 with hlt | hge
        · exfalso
          have hw1 : w = 1 := by omega
          rw [hw1, pow_one] at hw
          omega
        · exact hge
      have hdivf : n / 16 < f := by
        have h1 : n / 16 < n := Nat.div_lt_self (by omega) (by omega)
        omega
      have hdivp : n / 16 < 16 ^ (w - 1) := by
        rw [Nat.div_lt_iff_lt_mul (by omega)]
        calc n < 16 ^ w := hw
        _ = 16 ^ (w - 1) * 16 := by
              rw [← pow_succ]
              congr 1
              omega
      have := ih (n / 16) (w - 1) hdivf hdivp (by omega)
      simp only [toHexAux, if_neg h16, List.length_append, List.length_singleton]
      omega

theorem toHex_length (n w : Nat) (hw : n < 16 ^ w) (h0 : 0 < w) :
    (toHex n).length ≤ w :=
  toHexAux_length (n + 1) n w (Nat.lt_succ_self n) hw h0

theorem decodeHexL_replicate_zero (k : Nat) (l : List Char) :
    decodeHexL (List.replicate k '0' ++ l) = decodeHexL l := by
  induction k with
  | zero => simp
  | succ m ih =>
    have : List.replicate (m + 1) '0' ++ l = '0' :: (List.replicate m '0' ++ l) := by
      simp [List.replicate_succ]
    rw [this]
    simpa [decodeHexL, hexVal] using ih

theorem decodeHex_renderCode (digits n : Nat) :
    decodeHex (renderCode digits n) = n := by
  simp only [decodeHex, renderCode, padStartZero]
  rw [decodeHexL_replicate_zero, toHex_decode]

theorem renderCode_length (digits n : Nat) (hw : n < 16 ^ digits) (h0 : 0 < digits) :
    (renderCode digits n).length = digits := by
  have hlen := toHex_length n digits hw h0
  simp only [renderCode, String.length, padStartZero, List.length_append,
    List.length_replicate]
  omega

/-! ## Management-number allocators

Two variants live in the repository:

* `ensureManagementNo` (`src/unnamed/part_003`, lines 84-109): reads
  `{v, digits}` from the singleton counter document (`v` defaults to 0,
  `digits` to 6 when absent/falsy), computes `next = v + 1`, and on
  `next >= 16^digits` resets `next = 1` **and grows `digits` by 1**.
* `ensureManagementNo7` (`src/afterProcess.js`, lines 169-193): fixed
  `digits = 7`; on `next >= 16^7` it resets `next = 1` **without growing the
  width**.

Both persist the new `{v, digits}` and return the rendered code.  The
Firestore transaction body is embedded as a pure function on the counter
state.
-/

/-- The singleton counter document `system_configs/sequence_managementNo_global`:
`{v, digits}`.  The absent document is `⟨0, 0⟩` (both fields read as falsy). -/
structure CounterState where
  v : Nat
  digits : Nat
  deriving DecidableEq, Repr

/-- JS `snap.data()?.digits ? Number(snap.data().digits) : 6`: a falsy (0 /
absent) stored width reads as 6. -/
def effDigits (d : Nat) : Nat := if d = 0 then 6 else d

/-- Transaction body of `ensureManagementNo` (`part_003`): the growing-width
allocator.  Returns the persisted state and the returned code. -/
def growStep (s : CounterState) : CounterState × String :=
  let digits := if s.digits = 0 then 6 else s.digits
  let next := s.v + 1
  if 16 ^ digits ≤ next then
    (⟨1, digits + 1⟩, renderCode (digits + 1) 1)
  else
    (⟨next, digits⟩, renderCode digits next)

/-- Runs `n` sequential allocations through `ensureManagementNo`, in order. -/
def growRun (s : CounterState) : Nat → List String
  | 0 => []
  | n + 1 => (growStep s).2 :: growRun (growStep s).1 n

/-- Transaction body of `ensureManagementNo7` (`afterProcess.js`): fixed
width 7, wrapping `next` back to 1 at capacity.  The stored state is just
`v` (the stored `digits` field is always 7). -/
def fixedStep7 (v : Nat) : Nat × String :=
  let next := v + 1
  let next := if 16 ^ 7 ≤ next then 1 else next
  (next, renderCode 7 next)

/-- Runs `n` sequential allocations through `ensureManagementNo7`, in order. -/
def fixedRun7 (v : Nat) : Nat → List String
  | 0 => []
  | n + 1 => (fixedStep7 v).2 :: fixedRun7 (fixedStep7 v).1 n

/-- The `extractManagementNo`-style wrapper (`part_003`): an explicit extracted
code short-circuits allocation (`if (extracted) return extracted`). -/
def ensureManagementNo (extracted : Option String) (s : CounterState) :
    CounterState × String :=
  match extracted with
  | some e => if e ≠ "" then (s, e) else growStep s
  | none => growStep s

/-- Counter-state invariant: the stored value fits the (effective) width.
Holds for the absent document `⟨0, 0⟩` and is preserved by `growStep`. -/
def ValidCounter (s : CounterState) : Prop := s.v < 16 ^ effDigits s.digits

/-- Rank of a counter state; strictly increases along `growStep`. -/
def stateRank (s : CounterState) : Nat := 16 ^ effDigits s.digits + s.v

/-- Rank of an issued code: determined by the code string alone. -/
def codeRank (c : String) : Nat := 16 ^ c.length + decodeHex c

theorem growStep_valid {s : CounterState} (h : ValidCounter s) :
    ValidCounter (growStep s).1 := by
  unfold ValidCounter growStep effDigits at *
  by_cases hroll : 16 ^ (if s.digits = 0 then 6 else s.digits) ≤ s.v + 1
  · simp only [hroll, if_true]
    have : ¬ ((if s.digits = 0 then 6 else s.digits) + 1 = 0) := by omega
    simp only [this, if_false]
    exact Nat.one_lt_pow (by omega) (by omega)
  · simp only [hroll, if_false]
    have hd : ¬ ((if s.digits = 0 then 6 else s.digits) = 0) := by
      split <;> omega
    simp only [hd, if_false]
    omega

theorem growStep_codeRank {s : CounterState} (h : ValidCounter s) :
    codeRank (growStep s).2 = stateRank (growStep s).1 := by
  unfold ValidCounter at h
  unfold growStep codeRank stateRank effDigits at *
  set d := if s.digits = 0 then 6 else s.digits with hd
  have hd0 : 0 < d := by rw [hd]; split <;> omega
  by_cases hroll : 16 ^ d ≤ s.v + 1
  · simp only [hroll, if_true]
    have hne : ¬ (d + 1 = 0) := by omega
    simp only [hne, if_false]
    rw [renderCode_length (d + 1) 1 (Nat.one_lt_pow (by omega) (by omega)) (by omega),
      decodeHex_renderCode]
  · simp only [hroll, if_false]
    have hne : ¬ (d = 0) := by omega
    simp only [hne, if_false]
    rw [renderCode_length d (s.v + 1) (by omega) hd0, decodeHex_renderCode]

theorem growStep_rank_lt {s : CounterState} (h : ValidCounter s) :
    stateRank s < stateRank (growStep s).1 := by
  unfold ValidCounter at h
  unfold growStep stateRank effDigits at *
  set d := if s.digits = 0 then 6 else s.digits with hd
  by_cases hroll : 16 ^ d ≤ s.v + 1
  · simp only [hroll, if_true]
    have hne : ¬ (d + 1 = 0) := by omega
    simp only [hne, if_false]
    have : 16 ^ d * 2 ≤ 16 ^ (d + 1) := by
      rw [pow_succ]
      exact Nat.mul_le_mul_left _ (by omega)
    omega
  · simp only [hroll, if_false]
    have hne : ¬ (d = 0) := by
      rw [hd]; split <;> omega
    simp only [hne, if_false]
    omega

theorem growRun_rank_lt {s : CounterState} (hs : ValidCounter s) :
    ∀ n c, c ∈ growRun s n → stateRank s < codeRank c := by
  intro n
  induction n generalizing s with
  | zero => intro c hc; simp [growRun] at hc
  | succ m ih =>
    intro c hc
    simp only [growRun, List.mem_cons] at hc
    rcases hc with hc | hc
    · rw [hc, growStep_codeRank hs]
      exact growStep_rank_lt hs
    · exact lt_trans (growStep_rank_lt hs) (ih (growStep_valid hs) c hc)

theorem growRun_nodup {s : CounterState} (hs : ValidCounter s) :
    ∀ n, (growRun s n).Nodup := by
  intro n
  induction n generalizing s with
  | zero => simp [growRun]
  | succ m ih =>
    simp only [growRun, List.nodup_cons]
    refine ⟨fun hmem => ?_, ih (growStep_valid hs)⟩
    have h1 := growRun_rank_lt (growStep_valid hs) m _ hmem
    rw [growStep_codeRank hs] at h1
    exact lt_irrefl _ h1

theorem fixedStep7_no_roll {v : Nat} (h : v + 1 < 16 ^ 7) :
    fixedStep7 v = (v + 1, renderCode 7 (v + 1)) := by
  unfold fixedStep7
  simp only [if_neg (Nat.not_le_of_lt h)]

theorem fixedRun7_decode_gt :
    ∀ (n v : Nat), v + n < 16 ^ 7 → ∀ c ∈ fixedRun7 v n, v < decodeHex c := by
  intro n
  induction n with
  | zero => intro v _ c hc; simp [fixedRun7] at hc
  | succ m ih =>
    intro v hv c hc
    have hstep := fixedStep7_no_roll (v := v) (by omega)
    simp only [fixedRun7, hstep, List.mem_cons] at hc
    rcases hc with hc | hc
    · rw [hc, decodeHex_renderCode]; omega
    · have := ih (v + 1) (by omega) c hc
      omega

/-- C1 (counterexample).  The fixed-width allocator `ensureManagementNo7`
(`src/afterProcess.js`) does **not** grow the width at capacity: when the
counter holds `16^7 - 1` the next allocation wraps the counter back to 1 and
returns the 7-character code `"0000001"` — the very code issued by the first
allocation from the empty counter — so a code is reused and the width stays 7
instead of growing to 8. -/
theorem fixed7_wrap_reuses_code :
    (fixedStep7 (16 ^ 7 - 1)).2 = "0000001" ∧
    (fixedStep7 0).2 = "0000001" ∧
    (fixedStep7 (16 ^ 7 - 1)).1 = 1 ∧
    ((fixedStep7 (16 ^ 7 - 1)).2).length = 7 := by decide

/-- C1 (amended).  The growing-width allocator `ensureManagementNo`
(`src/unnamed/part_003`) has the claimed behaviour: when
`next = v + 1` reaches `16 ^ width` it persists width `width + 1` and counter
value 1, and no code is ever reused: starting from any counter state whose
value fits its width (in particular the initial, absent document `⟨0, 0⟩`,
read as width 6), the codes returned by any number of sequential allocations
are pairwise distinct. -/
theorem growAllocator_rollover_no_reuse :
    (∀ s : CounterState, 16 ^ effDigits s.digits ≤ s.v + 1 →
      (growStep s).1 = ⟨1, effDigits s.digits + 1⟩) ∧
    (∀ (s : CounterState) (n : Nat), s.v < 16 ^ effDigits s.digits →
      (growRun s n).Nodup) := by
  constructor
  · intro s h
    unfold growStep effDigits at *
    simp only [h, if_true]
  · intro s n hs
    exact growRun_nodup hs n

/-- Witness for `growAllocator_rollover_no_reuse` at concrete inputs. -/
theorem growAllocator_rollover_no_reuse_witness :
    (growStep ⟨15, 1⟩).1 = ⟨1, 2⟩ ∧ (growRun ⟨0, 6⟩ 3).Nodup := by
  refine ⟨?_, growAllocator_rollover_no_reuse.2 ⟨0, 6⟩ 3 (by decide)⟩
  have h := growAllocator_rollover_no_reuse.1 ⟨15, 1⟩ (by decide)
  simpa [effDigits] using h

/-- C2 (counterexample).  Starting `ensureManagementNo7` from the counter
state `16^7 - 2`, two sequential allocations return `"FFFFFFF"` and then
(after the wrap) `"0000001"`: the decoded-as-hex values are not strictly
increasing, refuting the claim for arbitrary starting states. -/
theorem fixed7_rollover_not_increasing :
    fixedRun7 (16 ^ 7 - 2) 2 = ["FFFFFFF", "0000001"] ∧
    ¬ decodeHex "FFFFFFF" < decodeHex "0000001" := by decide

/-- C2 (amended).  For the fixed-width allocator `ensureManagementNo7`
(`src/afterProcess.js`): for every `n` and every starting counter value `v`
such that no rollover occurs during the `n` allocations (`v + n < 16 ^ 7`),
the `n` returned codes are strictly increasing when decoded as hexadecimal,
and in particular pairwise distinct. -/
theorem fixed7_run_increasing_nodup :
    ∀ (v n : Nat), v + n < 16 ^ 7 →
      List.Pairwise (fun a b => decodeHex a < decodeHex b) (fixedRun7 v n) ∧
      (fixedRun7 v n).Nodup := by
  have key : ∀ (n v : Nat), v + n < 16 ^ 7 →
      List.Pairwise (fun a b => decodeHex a < decodeHex b) (fixedRun7 v n) := by
    intro n
    induction n with
    | zero => intro v _; simp [fixedRun7]
    | succ m ih =>
      intro v hv
      have hstep := fixedStep7_no_roll (v := v) (by omega)
      simp only [fixedRun7, hstep]
      refine List.Pairwise.cons (fun c hc => ?_) (ih (v + 1) (by omega))
      rw [decodeHex_renderCode]
      exact fixedRun7_decode_gt m (v + 1) (by omega) c hc
  intro v n hv
  refine ⟨key n v hv, List.Pairwise.imp ?_ (key n v hv)⟩
  intro a b hab heq
  rw [heq] at hab
  exact lt_irrefl _ hab

/-- Witness for `fixed7_run_increasing_nodup` at concrete inputs. -/
theorem fixed7_run_increasing_nodup_witness :
    List.Pairwise (fun a b => decodeHex a < decodeHex b) (fixedRun7 0 3) ∧
    (fixedRun7 0 3).Nodup :=
  fixed7_run_increasing_nodup 0 3 (by decide)

/-! ## Customer matcher

Embeds the matching core of `detectCustomerFromMaster`
(`src/unnamed/part_015`, lines 141-185) / `detectCustomer`
(`src/unnamed/part_003`, lines 595-643): a master list of records, each with
mail / fax / name alias lists, matched against normalized free text by three
sequential scans.  The upstream spreadsheet parsing (matrix → rows, header
`indexOf`, cell splitting) is data plumbing producing the `rows` list and is
not modelled; the embedding starts at the parsed `rows` value, exactly as the
three `for` loops consume it.
-/

/-- Characters matched by the JS regular-expression class `\s`. -/
def jsIsSpace (c : Char) : Bool :=
  c ∈ ['\t', '\n', '\u000B', '\u000C', '\r', ' ', '\u00A0', '\u1680',
    '\u2000', '\u2001', '\u2002', '\u2003', '\u2004', '\u2005', '\u2006',
    '\u2007', '\u2008', '\u2009', '\u200A', '\u2028', '\u2029', '\u202F',
    '\u205F', '\u3000', '\uFEFF']

/-- Embeds `normalize`: `String(str).toLowerCase().replace(/\s+/g, "")`
(ASCII lower-casing, matching the alias data in use). -/
def normText (s : String) : String :=
  ⟨(s.data.map Char.toLower).filter (fun c => !jsIsSpace c)⟩

/-- Embeds `normalizeDigits`: `String(str).replace(/[^\d]/g, "")` — strip every
non-digit character (`\d` is `[0-9]`). -/
def normDigits (s : String) : String := ⟨s.data.filter Char.isDigit⟩

/-- Tests that `needle` is a leading segment of `hay` (character-wise). -/
def leadsWith : List Char → List Char → Bool
  | [], _ => true
  | _ :: _, [] => false
  | a :: as, b :: bs => a == b && leadsWith as bs

/-- Embeds `String.prototype.includes`: `needle` occurs contiguously in `hay`. -/
def hasSub (needle : List Char) : List Char → Bool
  | [] => needle.isEmpty
  | c :: t => leadsWith needle (c :: t) || hasSub needle t

/-- Embeds `hay.includes(needle)` on strings. -/
def strIncludes (hay needle : String) : Bool := hasSub needle.data hay.data

/-- One parsed master record (after the matrix/`split` plumbing). -/
structure CustomerRow where
  id : String
  name : String
  mailAliases : List String
  faxAliases : List String
  nameAliases : List String
  deriving DecidableEq, Repr

/-- First loop: any mail alias is a substring of the normalized text. -/
def mailScan (rows : List CustomerRow) (textNorm : String) :
    Option (String × String) :=
  rows.findSome? fun r =>
    r.mailAliases.findSome? fun a =>
      let aNorm := normText a
      if aNorm ≠ "" ∧ strIncludes textNorm aNorm then some (r.id, r.name)
      else none

/-- Second loop: any fax alias's digit sequence is a substring of the
digit-normalized text. -/
def faxScan (rows : List CustomerRow) (textDigits : String) :
    Option (String × String) :=
  rows.findSome? fun r =>
    r.faxAliases.findSome? fun a =>
      let aDigits := normDigits a
      if aDigits ≠ "" ∧ strIncludes textDigits aDigits then some (r.id, r.name)
      else none

/-- Third loop: any name alias is a substring of the normalized text. -/
def nameScan (rows : List CustomerRow) (textNorm : String) :
    Option (String × String) :=
  rows.findSome? fun r =>
    r.nameAliases.findSome? fun a =>
      let aNorm := normText a
      if aNorm ≠ "" ∧ strIncludes textNorm aNorm then some (r.id, r.name)
      else none

/-- The matching core of `detectCustomerFromMaster` / `detectCustomer`:
normalize the source text once, then run the three scans in order, first hit
winning. -/
def detectCustomerFromMaster (rows : List CustomerRow) (sourceText : String) :
    Option (String × String) :=
  match mailScan rows (normText sourceText) with
  | some hit => some hit
  | none =>
    match faxScan rows (normDigits sourceText) with
    | some hit => some hit
    | none => nameScan rows (normText sourceText)

/-- Master list for the C5 scenario: customer B (listed first) has only the
name alias `"Acme"`; customer A has only the mail alias `"a@x.com"`. -/
def demoMasterRows : List CustomerRow :=
  [⟨"B", "B Corp", [], [], ["Acme"]⟩,
   ⟨"A", "A Corp", ["a@x.com"], [], []⟩]

/-- C5.  The matcher checks alias classes in the order mail, fax, name with
the first hit winning: whenever the mail scan hits, its hit is the matcher's
answer (regardless of any fax or name hits), and in the concrete scenario —
customer A with mail alias `"a@x.com"`, customer B with name alias `"Acme"`,
text whose normalization contains both — the matcher returns customer A even
though B precedes A in master-list order. -/
theorem detect_mail_beats_name :
    (∀ (rows : List CustomerRow) (text : String) (hit : String × String),
      mailScan rows (normText text) = some hit →
      detectCustomerFromMaster rows text = some hit) ∧
    detectCustomerFromMaster demoMasterRows "Acme order, contact: a@x.com" =
      some ("A", "A Corp") := by
  constructor
  · intro rows text hit h
    simp only [detectCustomerFromMaster, h]
  · decide

/-- Witness for `detect_mail_beats_name` at a concrete input. -/
theorem detect_mail_beats_name_witness :
    detectCustomerFromMaster demoMasterRows "call Acme at a@x.com" =
      some ("A", "A Corp") :=
  detect_mail_beats_name.1 demoMasterRows "call Acme at a@x.com"
    ("A", "A Corp") (by decide)

/-- Master list for the C6 scenario: one customer with the single fax alias
`"03-1234-5678"`. -/
def demoFaxRows : List CustomerRow :=
  [⟨"C1", "Fax Co", [], ["03-1234-5678"], []⟩]

/-- C6.  Fax-alias matching strips every non-digit character from both sides
before the substring comparison: `normDigits` is literally the digit filter,
the alias `"03-1234-5678"` matches text containing `"TEL: 0312345678"`, and
does not match text whose digit sequence is `"0312345679"`. -/
theorem detect_fax_digits_normalized :
    (∀ s : String, (normDigits s).data = s.data.filter Char.isDigit) ∧
    normDigits "03-1234-5678" = "0312345678" ∧
    detectCustomerFromMaster demoFaxRows "TEL: 0312345678 order sheet" =
      some ("C1", "Fax Co") ∧
    normDigits "TEL: 0312345679" = "0312345679" ∧
    detectCustomerFromMaster demoFaxRows "TEL: 0312345679" = none := by
  refine ⟨fun s => rfl, ?_, ?_, ?_, ?_⟩ <;> decide

/-! ## Supabase mirror model

Embeds `src/supabaseSync.js` (first document, lines 1-332; the variant also
stored as `src/unnamed/part_011`): tables `cases`, `messages`,
`message_attachments`, `message_main_pdf_files` become lists of rows; case
ids are allocated by the store and modelled by a `nextCaseId` counter;
`maybeSingle` on an equality filter is `List.find?`; `upsert` keyed on `id`
replaces the matching row or appends; `delete().eq(...)` is a filter.
JS nullish coalescing `??` on nullable values is `Option.orElse` (`<|>`), and
JS truthiness of a nullable string (`if (x)`, `x || y`) is `jsTruthyStr`
(both `null`/`undefined` and `""` are falsy).
-/

/-- JS truthiness of a nullable string value. -/
def jsTruthyStr : Option String → Bool
  | some s => s ≠ ""
  | none => false

/-- Embeds `p.split("/").pop() || null`: the substring after the last `/`, or null
when it is empty. -/
def jsLastSegment (p : String) : Option String :=
  let seg : String := ⟨(p.data.reverse.takeWhile (fun c => c ≠ '/')).reverse⟩
  if seg = "" then none else some seg

/-- Embeds `stripHtmlTags`: `html.replace(/<[^>]*>/g, " ")`.  Structural-fuel
scanner: each `<...>` tag (a `<`, then characters other than `>`, then `>`)
becomes one space; a `<` with no closing `>` is kept verbatim. -/
def stripHtmlAux : Nat → List Char → List Char
  | 0, _ => []
  | _ + 1, [] => []
  | fuel + 1, c :: t =>
    if c = '<' then
      if t.contains '>' then
        ' ' :: stripHtmlAux fuel ((t.dropWhile (fun d => d ≠ '>')).drop 1)
      else c :: stripHtmlAux fuel t
    else c :: stripHtmlAux fuel t

/-- Embeds `stripHtmlTags(html)` from `supabaseSync.js`. -/
def stripHtmlTags (html : String) : String :=
  ⟨stripHtmlAux html.data.length html.data⟩

/-- A row of the `cases` table. -/
structure CaseRow where
  id : Nat
  management_no : String
  customer_id : Option String
  customer_name : Option String
  title : Option String
  latest_message_at : Nat
  deriving DecidableEq, Repr

/-- A row of the `messages` table (the columns the sync phases write). -/
structure MessageRow where
  id : String
  case_id : Nat
  message_type : Option String
  subject : Option String
  from_email : Option String
  to_email : Option String
  received_at : Nat
  snippet : Option String
  main_pdf_path : Option String
  body_text : String
  body_type : String
  deriving DecidableEq, Repr

/-- A row of the `message_attachments` table. -/
structure AttachmentRow where
  case_id : Nat
  message_id : String
  gcs_path : String
  file_name : Option String
  mime_type : Option String
  deriving DecidableEq, Repr

/-- A row of the `message_main_pdf_files` table. -/
structure MainPdfRow where
  case_id : Nat
  message_id : String
  gcs_path : String
  file_name : Option String
  mime_type : String
  file_type : String
  thumbnail_path : Option String
  deriving DecidableEq, Repr

/-- The relational mirror: the four tables plus the store's case-id
sequence. -/
structure Mirror where
  cases : List CaseRow
  nextCaseId : Nat
  messages : List MessageRow
  message_attachments : List AttachmentRow
  message_main_pdf_files : List MainPdfRow
  deriving DecidableEq, Repr

/-- The empty mirror. -/
def Mirror.empty : Mirror := ⟨[], 1, [], [], []⟩

/-- Embeds `supabase.from("cases").select("id").eq("management_no", k).maybeSingle()`. -/
def findCaseByManagementNo (m : Mirror) (k : String) : Option CaseRow :=
  m.cases.find? (fun c => c.management_no == k)

/-- Field update applied by `ensureCaseByManagementNo`'s update branch to the
case with id `i`. -/
def updCaseFields (i : Nat) (customerId customerName title : Option String)
    (receivedAtIso : Nat) (r : CaseRow) : CaseRow :=
  if r.id = i then
    { r with customer_id := customerId, customer_name := customerName,
             latest_message_at := receivedAtIso, title := title }
  else r

/-- Embeds `ensureCaseByManagementNo` (`supabaseSync.js`, lines 21-65): look up the
case by key; if found, update customer id/name, latest-message-at and title
and return its id; otherwise insert a new row and return the new id. -/
def ensureCaseByManagementNo (m : Mirror) (managementNo : String)
    (customerId customerName title : Option String) (receivedAtIso : Nat) :
    Mirror × Nat :=
  match findCaseByManagementNo m managementNo with
  | some existing =>
    let updated := m.cases.map
      (updCaseFields existing.id customerId customerName title receivedAtIso)
    ({ m with cases := updated }, existing.id)
  | none =>
    let inserted := m.cases ++
      [⟨m.nextCaseId, managementNo, customerId, customerName, title,
        receivedAtIso⟩]
    ({ m with cases := inserted, nextCaseId := m.nextCaseId + 1 }, m.nextCaseId)

/-- Embeds `migrateCaseManagementNo` (`supabaseSync.js`, lines 67-101): no-op on a
falsy key or equal keys; no-op when no case exists under the old key or one
already exists under the new key; otherwise rewrite the old case's key. -/
def migrateCaseManagementNo (m : Mirror) (oldManagementNo newManagementNo : String) :
    Mirror :=
  if oldManagementNo = "" ∨ newManagementNo = "" ∨ oldManagementNo = newManagementNo
  then m
  else
    match findCaseByManagementNo m oldManagementNo with
    | none => m
    | some oldCase =>
      match findCaseByManagementNo m newManagementNo with
      | some _ => m
      | none =>
        { m with cases := m.cases.map (fun r =>
            if r.id = oldCase.id then { r with management_no := newManagementNo }
            else r) }

/-- Embeds the message upsert keyed on the id column (onConflict id). -/
def upsertMessage (m : Mirror) (row : MessageRow) : Mirror :=
  if m.messages.any (fun r => r.id == row.id) then
    { m with messages := m.messages.map (fun r => if r.id == row.id then row else r) }
  else
    { m with messages := m.messages ++ [row] }

/-- The Firestore `messages/{messageId}` document, as read by both sync
phases (`getMessageDoc`).  `internalDate` / `receivedAt` carry the epoch
milliseconds of the two timestamp representations `getReceivedAt` accepts;
`ocrFullText` is `data.ocr?.fullText`; `main_pdf_path_snake` is the
legacy snake-case field `data.main_pdf_path`. -/
structure MsgDoc where
  messageType : Option String
  subject : Option String
  fromAddr : Option String
  toAddr : Option String
  snippet : Option String
  textPlain : Option String
  textHtml : Option String
  attachments : List String
  ocrFullText : Option String
  managementNo : Option String
  mainPdfPath : Option String
  main_pdf_path_snake : Option String
  internalDate : Option Nat
  receivedAt : Option Nat
  customerId : Option String
  customerName : Option String
  deriving DecidableEq, Repr

/-- Embeds `getReceivedAt`: `internalDate` if numeric, else the stored
`receivedAt` timestamp, else `new Date()` (the ambient time `now`). -/
def getReceivedAt (data : MsgDoc) (now : Nat) : Nat :=
  match data.internalDate with
  | some t => t
  | none =>
    match data.receivedAt with
    | some t => t
    | none => now

/-- Body text selected for a mail message (both phases):
`textPlain` if truthy, else HTML stripped of tags, else `""`. -/
def mailBodyText (data : MsgDoc) : String :=
  if jsTruthyStr data.textPlain then data.textPlain.getD ""
  else if jsTruthyStr data.textHtml then stripHtmlTags (data.textHtml.getD "")
  else ""

/-- The resolved customer argument passed to the Full phase. -/
structure CustomerArg where
  id : Option String
  name : Option String
  deriving DecidableEq, Repr

/-- Embeds `mirrorMessageToSupabaseBasic` (`supabaseSync.js`, lines 109-180): the
provisional (Basic-phase) sync.  `doc` is the Firestore message document
(`none` when it does not exist, in which case the function returns with the
mirror unchanged). -/
def mirrorMessageToSupabaseBasic (messageId : String) (doc : Option MsgDoc)
    (now : Nat) (m : Mirror) : Mirror :=
  match doc with
  | none => m
  | some data =>
    let receivedAtIso := getReceivedAt data now
    let isFax := data.messageType == some "fax"
    let bodyText := if !isFax then mailBodyText data else data.snippet.getD ""
    let bodyType := if !isFax then "mail_raw" else "fax_basic"
    let tempManagementNo := messageId
    let ens := ensureCaseByManagementNo m tempManagementNo
      data.customerId data.customerName data.subject receivedAtIso
    upsertMessage ens.1
      ⟨messageId, ens.2, data.messageType, data.subject, data.fromAddr,
        data.toAddr, receivedAtIso, data.snippet, none, bodyText, bodyType⟩

/-- Arguments of `mirrorMessageToSupabaseFull` (besides the Firestore
document itself). -/
structure FullArgs where
  messageId : String
  managementNo : Option String
  customer : Option CustomerArg
  mainPdfPath : Option String
  mainPdfThumbnailPath : Option String
  fullOcrText : Option String
  deriving DecidableEq, Repr

/-- Embeds `managementNo || data.managementNo` (JS `||`: first truthy operand). -/
def finalMgmtNo (args : FullArgs) (data : MsgDoc) : Option String :=
  if jsTruthyStr args.managementNo then args.managementNo else data.managementNo

/-- Embeds `mainPdfPath ?? data.mainPdfPath ?? data.main_pdf_path ?? null`. -/
def finalMainPdf (args : FullArgs) (data : MsgDoc) : Option String :=
  args.mainPdfPath <|> data.mainPdfPath <|> data.main_pdf_path_snake

/-- Full-phase body text: OCR text for fax (`fullOcrText ?? data.ocr?.fullText
?? ""`), raw/stripped text for mail. -/
def fullBodyText (args : FullArgs) (data : MsgDoc) : String :=
  if data.messageType == some "fax" then (args.fullOcrText <|> data.ocrFullText).getD ""
  else mailBodyText data

/-- Section `3) message_attachments（mailのみ）: delete → insert` of
`mirrorMessageToSupabaseFull`: for mail, delete all attachment rows of the
message and re-insert one row per attachment path (insert only issued when
the row list is non-empty); for fax, untouched. -/
def fullReplaceAttachments (isFax : Bool) (caseId : Nat) (messageId : String)
    (attachments : List String) (m : Mirror) : Mirror :=
  if isFax then m
  else
    let kept := m.message_attachments.filter (fun r => r.message_id != messageId)
    let rows := attachments.map (fun p =>
      (⟨caseId, messageId, p, jsLastSegment p, none⟩ : AttachmentRow))
    if rows.isEmpty then { m with message_attachments := kept }
    else { m with message_attachments := kept ++ rows }

/-- Section `4) message_main_pdf_files: delete → insert` of
`mirrorMessageToSupabaseFull`: delete the message's primary-document rows,
then insert the single row when a primary-document path is available. -/
def fullReplaceMainPdf (isFax : Bool) (caseId : Nat) (messageId : String)
    (finalMainPdfPath thumbnailPath : Option String) (m : Mirror) : Mirror :=
  let m5 := { m with message_main_pdf_files :=
    m.message_main_pdf_files.filter (fun r => r.message_id != messageId) }
  if jsTruthyStr finalMainPdfPath then
    { m5 with message_main_pdf_files := m5.message_main_pdf_files ++
      [⟨caseId, messageId, finalMainPdfPath.getD "",
        jsLastSegment (finalMainPdfPath.getD ""), "application/pdf",
        if isFax then "fax_original" else "mail_rendered", thumbnailPath⟩] }
  else m5

/-- Sections `0)`/`1)` of `mirrorMessageToSupabaseFull`: migrate the
provisional case (`management_no = messageId`) to the final key, then ensure
the case under the final key; returns the new mirror and the case id. -/
def fullCasePhase (args : FullArgs) (data : MsgDoc) (now : Nat) (m : Mirror) :
    Mirror × Nat :=
  let finalKey := (finalMgmtNo args data).getD ""
  let m1 := migrateCaseManagementNo m args.messageId finalKey
  ensureCaseByManagementNo m1 finalKey
    ((args.customer.bind (fun c => c.id)) <|> data.customerId)
    ((args.customer.bind (fun c => c.name)) <|> data.customerName)
    data.subject (getReceivedAt data now)

/-- Embeds `mirrorMessageToSupabaseFull` (`supabaseSync.js`, lines 188-332): the
finalizing (Full-phase) sync.  Returns the mirror unchanged when the
document is missing or when no management number is available
(`managementNo || data.managementNo` falsy); otherwise migrates the
provisional case, re-ensures the case under the final key, upserts the
message with finalized body fields and primary-document path, replaces the
attachment rows (delete-then-insert, mail only) and replaces the
primary-document row (delete-then-insert). -/
def mirrorMessageToSupabaseFull (args : FullArgs) (doc : Option MsgDoc)
    (now : Nat) (m : Mirror) : Mirror :=
  match doc with
  | none => m
  | some data =>
    if !jsTruthyStr (finalMgmtNo args data) then m
    else
      let isFax := data.messageType == some "fax"
      let ens := fullCasePhase args data now m
      let caseId := ens.2
      let m3 := upsertMessage ens.1
        ⟨args.messageId, caseId, data.messageType, data.subject, data.fromAddr,
          data.toAddr, getReceivedAt data now, data.snippet,
          finalMainPdf args data, fullBodyText args data,
          if isFax then "fax_ocr" else "mail_raw"⟩
      let m4 := fullReplaceAttachments isFax caseId args.messageId
        data.attachments m3
      fullReplaceMainPdf isFax caseId args.messageId (finalMainPdf args data)
        args.mainPdfThumbnailPath m4

/-! ### List helper lemmas for the mirror proofs -/

theorem find?_map_pred {α β : Type} (f : α → β) (p : β → Bool) (q : α → Bool)
    (l : List α) (h : ∀ x, p (f x) = q x) :
    (l.map f).find? p = (l.find? q).map f := by
  induction l with
  | nil => rfl
  | cons a t ih =>
    by_cases hqa : q a = true
    · rw [List.map_cons, List.find?_cons_of_pos _ (by rw [h a]; exact hqa),
        List.find?_cons_of_pos _ hqa]
      rfl
    · have hq : q a = false := by
        cases hv : q a
        · rfl
        · exact absurd hv hqa
      rw [List.map_cons, List.find?_cons_of_neg _ (by rw [h a, hq]; simp),
        List.find?_cons_of_neg _ (by rw [hq]; simp)]
      exact ih

theorem find?_append_of_none {α : Type} {p : α → Bool} {l₁ : List α}
    (l₂ : List α) (h : l₁.find? p = none) :
    (l₁ ++ l₂).find? p = l₂.find? p := by
  induction l₁ with
  | nil => rfl
  | cons a t ih =>
    have hpa : ¬ p a = true := by
      intro hpa
      rw [List.find?_cons_of_pos _ hpa] at h
      cases h
    rw [List.find?_cons_of_neg _ hpa] at h
    rw [List.cons_append, List.find?_cons_of_neg _ hpa]
    exact ih h

theorem find?_id_of_nodup {l : List CaseRow}
    (h : (l.map (fun c => c.id)).Nodup) {c : CaseRow} (hc : c ∈ l) :
    l.find? (fun r => r.id == c.id) = some c := by
  induction l with
  | nil => cases hc
  | cons a t ih =>
    rw [List.map_cons, List.nodup_cons] at h
    rcases List.mem_cons.mp hc with rfl | hct
    · rw [List.find?_cons_of_pos _ (by simp)]
    · have haid : a.id ≠ c.id := by
        intro he
        exact h.1 (he ▸ List.mem_map_of_mem (fun r => r.id) hct)
      rw [List.find?_cons_of_neg _ (by simp [haid])]
      exact ih h.2 hct

theorem updCaseFields_management_no (i : Nat) (a b c : Option String) (d : Nat)
    (r : CaseRow) : (updCaseFields i a b c d r).management_no = r.management_no := by
  unfold updCaseFields
  split <;> rfl

theorem updCaseFields_id (i : Nat) (a b c : Option String) (d : Nat)
    (r : CaseRow) : (updCaseFields i a b c d r).id = r.id := by
  unfold updCaseFields
  split <;> rfl

theorem ensureCase_found_fst (m : Mirror) (key : String)
    (cid cn t : Option String) (r : Nat) {ex : CaseRow}
    (h0 : findCaseByManagementNo m key = some ex) :
    (ensureCaseByManagementNo m key cid cn t r).1 =
      { m with cases := m.cases.map (updCaseFields ex.id cid cn t r) } := by
  unfold ensureCaseByManagementNo
  rw [h0]

theorem ensureCase_found_snd (m : Mirror) (key : String)
    (cid cn t : Option String) (r : Nat) {ex : CaseRow}
    (h0 : findCaseByManagementNo m key = some ex) :
    (ensureCaseByManagementNo m key cid cn t r).2 = ex.id := by
  unfold ensureCaseByManagementNo
  rw [h0]

theorem ensureCase_notfound_fst (m : Mirror) (key : String)
    (cid cn t : Option String) (r : Nat)
    (h0 : findCaseByManagementNo m key = none) :
    (ensureCaseByManagementNo m key cid cn t r).1 =
      { m with cases := m.cases ++ [⟨m.nextCaseId, key, cid, cn, t, r⟩], nextCaseId := m.nextCaseId + 1 } := by
  unfold ensureCaseByManagementNo
  rw [h0]

theorem ensureCase_notfound_snd (m : Mirror) (key : String)
    (cid cn t : Option String) (r : Nat)
    (h0 : findCaseByManagementNo m key = none) :
    (ensureCaseByManagementNo m key cid cn t r).2 = m.nextCaseId := by
  unfold ensureCaseByManagementNo
  rw [h0]

theorem updCaseFields_preserves_key (i : Nat) (a b c : Option String) (d : Nat)
    (x : CaseRow) (key : String) :
    ((updCaseFields i a b c d x).management_no == key) = (x.management_no == key) := by
  rw [updCaseFields_management_no]

/-- C7.  For every mirror whose `cases` table is well formed (distinct ids,
all below the id sequence) and every management-number key: calling
`ensureCaseByManagementNo` twice with that key returns the same case id both
times; after the second call the case row with that id carries the second
call's customer id, customer name, title and latest-message-at; and when no
case exists under the key, the first call inserts a new row (with the fresh
id) and returns that id. -/
theorem ensureCase_twice_same_id :
    ∀ (m : Mirror) (key : String) (cid₁ cn₁ t₁ : Option String) (r₁ : Nat)
      (cid₂ cn₂ t₂ : Option String) (r₂ : Nat),
    (m.cases.map (fun c => c.id)).Nodup →
    (∀ c ∈ m.cases, c.id < m.nextCaseId) →
    (ensureCaseByManagementNo
        (ensureCaseByManagementNo m key cid₁ cn₁ t₁ r₁).1
        key cid₂ cn₂ t₂ r₂).2 =
      (ensureCaseByManagementNo m key cid₁ cn₁ t₁ r₁).2 ∧
    ((ensureCaseByManagementNo
        (ensureCaseByManagementNo m key cid₁ cn₁ t₁ r₁).1
        key cid₂ cn₂ t₂ r₂).1.cases.find?
          (fun c => c.id == (ensureCaseByManagementNo m key cid₁ cn₁ t₁ r₁).2)) =
      some ⟨(ensureCaseByManagementNo m key cid₁ cn₁ t₁ r₁).2, key,
        cid₂, cn₂, t₂, r₂⟩ ∧
    (findCaseByManagementNo m key = none →
      (ensureCaseByManagementNo m key cid₁ cn₁ t₁ r₁).2 = m.nextCaseId ∧
      (⟨m.nextCaseId, key, cid₁, cn₁, t₁, r₁⟩ : CaseRow) ∈
        (ensureCaseByManagementNo m key cid₁ cn₁ t₁ r₁).1.cases) := by
  intro m key cid₁ cn₁ t₁ r₁ cid₂ cn₂ t₂ r₂ hnodup hlt
  cases h0 : findCaseByManagementNo m key with
  | some ex =>
    have hex_mem : ex ∈ m.cases := List.mem_of_find?_eq_some h0
    have hex_key : ex.management_no = key := by
      have h := List.find?_some h0
      simpa using h
    have hfind1 : findCaseByManagementNo
        { m with cases := m.cases.map (updCaseFields ex.id cid₁ cn₁ t₁ r₁) }
        key = some (updCaseFields ex.id cid₁ cn₁ t₁ r₁ ex) := by
      show (m.cases.map (updCaseFields ex.id cid₁ cn₁ t₁ r₁)).find?
        (fun c => c.management_no == key) = _
      rw [find?_map_pred (updCaseFields ex.id cid₁ cn₁ t₁ r₁)
        (fun c => c.management_no == key) (fun c => c.management_no == key) _
        (fun x => updCaseFields_preserves_key ex.id cid₁ cn₁ t₁ r₁ x key)]
      show Option.map _ (findCaseByManagementNo m key) = _
      rw [h0]
      rfl
    rw [ensureCase_found_fst m key cid₁ cn₁ t₁ r₁ h0,
      ensureCase_found_snd m key cid₁ cn₁ t₁ r₁ h0,
      ensureCase_found_snd _ key cid₂ cn₂ t₂ r₂ hfind1,
      ensureCase_found_fst _ key cid₂ cn₂ t₂ r₂ hfind1,
      updCaseFields_id]
    refine ⟨rfl, ?_, ?_⟩
    · rw [List.map_map,
        find?_map_pred
          (updCaseFields ex.id cid₂ cn₂ t₂ r₂ ∘ updCaseFields ex.id cid₁ cn₁ t₁ r₁)
          (fun c => c.id == ex.id) (fun c => c.id == ex.id) m.cases
          (fun x => by simp [Function.comp_apply, updCaseFields_id]),
        find?_id_of_nodup hnodup hex_mem]
      obtain ⟨exid, exmgmt, exci, excn, ext', exlma⟩ := ex
      simp only [CaseRow.management_no] at hex_key
      simp [Function.comp, updCaseFields, hex_key]
    · intro h
      exact Option.noConfusion h
  | none =>
    have h0' : m.cases.find? (fun c => c.management_no == key) = none := h0
    have hfind1 : findCaseByManagementNo
        { m with cases := m.cases ++ [⟨m.nextCaseId, key, cid₁, cn₁, t₁, r₁⟩], nextCaseId := m.nextCaseId + 1 }
        key = some ⟨m.nextCaseId, key, cid₁, cn₁, t₁, r₁⟩ := by
      show List.find? (fun c : CaseRow => c.management_no == key)
        (m.cases ++ [(⟨m.nextCaseId, key, cid₁, cn₁, t₁, r₁⟩ : CaseRow)]) = _
      rw [find?_append_of_none _ h0', List.find?_cons_of_pos _ (by simp)]
    rw [ensureCase_notfound_fst m key cid₁ cn₁ t₁ r₁ h0,
      ensureCase_notfound_snd m key cid₁ cn₁ t₁ r₁ h0,
      ensureCase_found_snd _ key cid₂ cn₂ t₂ r₂ hfind1,
      ensureCase_found_fst _ key cid₂ cn₂ t₂ r₂ hfind1]
    refine ⟨rfl, ?_, fun _ => ⟨rfl, List.mem_append_right _ (by simp)⟩⟩
    show List.find? (fun c : CaseRow => c.id == m.nextCaseId)
      ((m.cases ++ [(⟨m.nextCaseId, key, cid₁, cn₁, t₁, r₁⟩ : CaseRow)]).map
        (updCaseFields m.nextCaseId cid₂ cn₂ t₂ r₂)) = _
    rw [List.map_append]
    rw [find?_append_of_none]
    · show List.find? (fun c : CaseRow => c.id == m.nextCaseId)
        ([(⟨m.nextCaseId, key, cid₁, cn₁, t₁, r₁⟩ : CaseRow)].map
          (updCaseFields m.nextCaseId cid₂ cn₂ t₂ r₂)) = _
      rw [List.map_singleton, List.find?_cons_of_pos _ (by simp [updCaseFields])]
      simp [updCaseFields]
    · rw [List.find?_eq_none]
      intro x hx
      rcases List.mem_map.mp hx with ⟨c, hc, rfl⟩
      have := hlt c hc
      simp only [updCaseFields_id]
      intro hceq
      have hceq' : c.id = m.nextCaseId := by simpa using hceq
      omega

/-- Witness for `ensureCase_twice_same_id` at concrete inputs. -/
theorem ensureCase_twice_same_id_witness :
    (ensureCaseByManagementNo
        (ensureCaseByManagementNo Mirror.empty "A00001"
          (some "c1") (some "N1") (some "T1") 5).1
        "A00001" (some "c2") (some "N2") (some "T2") 6).2 =
      (ensureCaseByManagementNo Mirror.empty "A00001"
        (some "c1") (some "N1") (some "T1") 5).2 ∧
    ((ensureCaseByManagementNo
        (ensureCaseByManagementNo Mirror.empty "A00001"
          (some "c1") (some "N1") (some "T1") 5).1
        "A00001" (some "c2") (some "N2") (some "T2") 6).1.cases.find?
          (fun c => c.id == (ensureCaseByManagementNo Mirror.empty "A00001"
            (some "c1") (some "N1") (some "T1") 5).2)) =
      some ⟨(ensureCaseByManagementNo Mirror.empty "A00001"
          (some "c1") (some "N1") (some "T1") 5).2, "A00001",
        some "c2", some "N2", some "T2", 6⟩ ∧
    ((ensureCaseByManagementNo Mirror.empty "A00001"
        (some "c1") (some "N1") (some "T1") 5).2 = Mirror.empty.nextCaseId ∧
      (⟨Mirror.empty.nextCaseId, "A00001", some "c1", some "N1", some "T1", 5⟩ :
          CaseRow) ∈
        (ensureCaseByManagementNo Mirror.empty "A00001"
          (some "c1") (some "N1") (some "T1") 5).1.cases) := by
  have h := ensureCase_twice_same_id Mirror.empty "A00001"
    (some "c1") (some "N1") (some "T1") 5 (some "c2") (some "N2") (some "T2") 6
    (by decide) (by decide)
  exact ⟨h.1, h.2.1, h.2.2 (by decide)⟩

/-- The mirror of the C8 counterexample: one case stored under the empty
management-number key. -/
def emptyKeyMirror : Mirror :=
  ⟨[⟨1, "", none, none, none, 0⟩], 2, [], [], []⟩

/-- C8 (counterexample).  With a case stored under the empty-string key, no
case under `"A00001"`, and the two keys distinct, none of the claim's three
no-op conditions holds — yet `migrateCaseManagementNo "" "A00001"` leaves the
mirror unchanged instead of rewriting the key, because the implementation
also returns early on a falsy (empty) key. -/
theorem migrate_emptyKey_not_updated :
    migrateCaseManagementNo emptyKeyMirror "" "A00001" = emptyKeyMirror ∧
    ("" : String) ≠ "A00001" ∧
    (findCaseByManagementNo emptyKeyMirror "").isSome = true ∧
    findCaseByManagementNo emptyKeyMirror "A00001" = none := by
  refine ⟨?_, ?_, ?_, ?_⟩ <;> decide

/-- C8 (amended).  `migrateCaseManagementNo(oldKey, newKey)` is a no-op
whenever `oldKey = newKey`, no case exists under `oldKey`, a case already
exists under `newKey`, **or either key is empty (falsy)**; in every other
case it rewrites the existing case's management-number key in place (and
changes nothing else). -/
theorem migrateCase_noop_or_update :
    ∀ (m : Mirror) (oldKey newKey : String),
    ((oldKey = "" ∨ newKey = "" ∨ oldKey = newKey ∨
        findCaseByManagementNo m oldKey = none ∨
        (findCaseByManagementNo m newKey).isSome = true) →
      migrateCaseManagementNo m oldKey newKey = m) ∧
    (∀ c : CaseRow, oldKey ≠ "" → newKey ≠ "" → oldKey ≠ newKey →
      findCaseByManagementNo m oldKey = some c →
      findCaseByManagementNo m newKey = none →
      migrateCaseManagementNo m oldKey newKey =
        { m with cases := m.cases.map (fun r =>
            if r.id = c.id then { r with management_no := newKey } else r) }) := by
  intro m oldKey newKey
  constructor
  · intro h
    unfold migrateCaseManagementNo
    by_cases hc : oldKey = "" ∨ newKey = "" ∨ oldKey = newKey
    · rw [if_pos hc]
    · rw [if_neg hc]
      push_neg at hc
      have h' : findCaseByManagementNo m oldKey = none ∨
          (findCaseByManagementNo m newKey).isSome = true := by tauto
      cases hold : findCaseByManagementNo m oldKey with
      | none => rfl
      | some c0 =>
        rcases h' with h' | h'
        · rw [hold] at h'
          cases h'
        · cases hnew : findCaseByManagementNo m newKey with
          | none =>
            rw [hnew] at h'
            cases h'
          | some c1 => rfl
  · intro c h1 h2 h3 h4 h5
    unfold migrateCaseManagementNo
    rw [if_neg (by tauto), h4, h5]

/-- Witness for `migrateCase_noop_or_update` at concrete inputs: a no-op on a
key collision, and an in-place key rewrite when the target key is free. -/
theorem migrateCase_noop_or_update_witness :
    migrateCaseManagementNo
        ⟨[⟨1, "MSG123", none, none, none, 0⟩, ⟨2, "A00001", none, none, none, 0⟩],
          3, [], [], []⟩ "MSG123" "A00001" =
      ⟨[⟨1, "MSG123", none, none, none, 0⟩, ⟨2, "A00001", none, none, none, 0⟩],
        3, [], [], []⟩ ∧
    migrateCaseManagementNo ⟨[⟨1, "MSG123", none, none, none, 0⟩], 2, [], [], []⟩
        "MSG123" "A00001" =
      { (⟨[⟨1, "MSG123", none, none, none, 0⟩], 2, [], [], []⟩ : Mirror) with
        cases := [⟨1, "MSG123", none, none, none, 0⟩].map (fun r =>
          if r.id = 1 then { r with management_no := "A00001" } else r) } := by
  constructor
  · exact (migrateCase_noop_or_update
      ⟨[⟨1, "MSG123", none, none, none, 0⟩, ⟨2, "A00001", none, none, none, 0⟩],
        3, [], [], []⟩ "MSG123" "A00001").1
      (Or.inr (Or.inr (Or.inr (Or.inr (by decide)))))
  · exact (migrateCase_noop_or_update
      ⟨[⟨1, "MSG123", none, none, none, 0⟩], 2, [], [], []⟩ "MSG123" "A00001").2
      ⟨1, "MSG123", none, none, none, 0⟩
      (by decide) (by decide) (by decide) (by decide) (by decide)

/-- C10.  When the Full-phase sync is invoked with no (truthy) `managementNo`
argument and the stored message document also carries no (truthy) management
number, `mirrorMessageToSupabaseFull` returns before performing any write:
the mirror is returned unchanged. -/
theorem fullSync_skips_without_managementNo :
    ∀ (args : FullArgs) (data : MsgDoc) (now : Nat) (m : Mirror),
    jsTruthyStr args.managementNo = false →
    jsTruthyStr data.managementNo = false →
    mirrorMessageToSupabaseFull args (some data) now m = m := by
  intro args data now m h1 h2
  have hfin : jsTruthyStr (finalMgmtNo args data) = false := by
    unfold finalMgmtNo
    rw [h1]
    simpa using h2
  unfold mirrorMessageToSupabaseFull
  simp [hfin]

/-- A concrete message document carrying no management number. -/
def docNoMgmt : MsgDoc :=
  { messageType := some "fax", subject := some "S", fromAddr := some "f@x",
    toAddr := some "t@x", snippet := some "snip", textPlain := none,
    textHtml := none, attachments := ["faxes/a.pdf"], ocrFullText := some "O",
    managementNo := none, mainPdfPath := none, main_pdf_path_snake := none,
    internalDate := some 1000, receivedAt := none, customerId := none,
    customerName := none }

/-- Witness for `fullSync_skips_without_managementNo` at concrete inputs. -/
theorem fullSync_skips_without_managementNo_witness :
    mirrorMessageToSupabaseFull ⟨"m1", none, none, none, none, none⟩
      (some docNoMgmt) 0 Mirror.empty = Mirror.empty :=
  fullSync_skips_without_managementNo ⟨"m1", none, none, none, none, none⟩
    docNoMgmt 0 Mirror.empty rfl rfl

/-! ### Attachment-table characterization of the Full phase -/

theorem migrate_message_attachments (m : Mirror) (o n : String) :
    (migrateCaseManagementNo m o n).message_attachments =
      m.message_attachments := by
  unfold migrateCaseManagementNo
  by_cases h : o = "" ∨ n = "" ∨ o = n
  · rw [if_pos h]
  · rw [if_neg h]
    cases hold : findCaseByManagementNo m o with
    | none => rfl
    | some c0 =>
      cases hnew : findCaseByManagementNo m n with
      | none => rfl
      | some c1 => rfl

theorem ensureCase_fst_message_attachments (m : Mirror) (k : String)
    (a b c : Option String) (d : Nat) :
    (ensureCaseByManagementNo m k a b c d).1.message_attachments =
      m.message_attachments := by
  unfold ensureCaseByManagementNo
  cases h : findCaseByManagementNo m k <;> rfl

theorem upsertMessage_message_attachments (m : Mirror) (r : MessageRow) :
    (upsertMessage m r).message_attachments = m.message_attachments := by
  unfold upsertMessage
  split <;> rfl

theorem fullCasePhase_fst_message_attachments (args : FullArgs) (data : MsgDoc)
    (now : Nat) (m : Mirror) :
    (fullCasePhase args data now m).1.message_attachments =
      m.message_attachments := by
  unfold fullCasePhase
  rw [ensureCase_fst_message_attachments, migrate_message_attachments]

theorem fullReplaceMainPdf_message_attachments (isFax : Bool) (caseId : Nat)
    (messageId : String) (fp tp : Option String) (m : Mirror) :
    (fullReplaceMainPdf isFax caseId messageId fp tp m).message_attachments =
      m.message_attachments := by
  unfold fullReplaceMainPdf
  split <;> rfl

theorem fullReplaceAttachments_fax (caseId : Nat) (messageId : String)
    (attachments : List String) (m : Mirror) :
    fullReplaceAttachments true caseId messageId attachments m = m := by
  unfold fullReplaceAttachments
  rfl

theorem fullReplaceAttachments_mail (caseId : Nat) (messageId : String)
    (attachments : List String) (m : Mirror) :
    (fullReplaceAttachments false caseId messageId attachments m).message_attachments =
      m.message_attachments.filter (fun r => r.message_id != messageId) ++
      attachments.map (fun p =>
        (⟨caseId, messageId, p, jsLastSegment p, none⟩ : AttachmentRow)) := by
  unfold fullReplaceAttachments
  cases attachments with
  | nil => simp
  | cons p ps => simp

/-- The attachment table after one mail-message Full sync: old rows of the
message deleted, one fresh row per attachment path of the document. -/
theorem fullSync_mail_attachments_char (args : FullArgs) (data : MsgDoc)
    (now : Nat) (m : Mirror)
    (hfax : (data.messageType == some "fax") = false)
    (hkey : jsTruthyStr (finalMgmtNo args data) = true) :
    (mirrorMessageToSupabaseFull args (some data) now m).message_attachments =
      m.message_attachments.filter (fun r => r.message_id != args.messageId) ++
      data.attachments.map (fun p =>
        (⟨(fullCasePhase args data now m).2, args.messageId, p,
          jsLastSegment p, none⟩ : AttachmentRow)) := by
  unfold mirrorMessageToSupabaseFull
  simp only [hkey, hfax, Bool.not_true, Bool.false_eq_true, if_false]
  rw [fullReplaceMainPdf_message_attachments, fullReplaceAttachments_mail,
    upsertMessage_message_attachments, fullCasePhase_fst_message_attachments]

theorem filter_self_filter {α : Type} (p : α → Bool) (l : List α) :
    (l.filter p).filter p = l.filter p := by
  induction l with
  | nil => rfl
  | cons a t ih =>
    by_cases h : p a = true
    · simp [List.filter_cons, h, ih]
    · simp [List.filter_cons, h, ih]

theorem filter_none_of_all_false {α : Type} (p : α → Bool) (l : List α)
    (h : ∀ a ∈ l, p a = false) : l.filter p = [] := by
  induction l with
  | nil => rfl
  | cons a t ih =>
    simp [List.filter_cons, h a (List.mem_cons_self a t),
      ih (fun x hx => h x (List.mem_cons_of_mem a hx))]

theorem length_filter_map {α β : Type} (f : α → β) (q : β → Bool) (l : List α) :
    ((l.map f).filter q).length = l.countP (fun x => q (f x)) := by
  induction l with
  | nil => rfl
  | cons a t ih =>
    cases h : q (f a) <;>
      simp [List.filter_cons, List.countP_cons, h, ih]

theorem countP_beq_eq_one {l : List String} (h : l.Nodup) {p : String}
    (hp : p ∈ l) : l.countP (fun x => x == p) = 1 := by
  induction l with
  | nil => cases hp
  | cons a t ih =>
    rw [List.nodup_cons] at h
    rcases List.mem_cons.mp hp with rfl | hpt
    · have hz : t.countP (fun x => x == p) = 0 := by
        rw [List.countP_eq_zero]
        intro x hx
        simp only [beq_iff_eq]
        intro he
        exact h.1 (he ▸ hx)
      rw [List.countP_cons]
      simp [hz]
    · have hne : (a == p) = false := by
        simp only [beq_eq_false_iff_ne, ne_eq]
        intro he
        exact h.1 (he ▸ hpt)
      rw [List.countP_cons]
      simp [hne, ih h.2 hpt]

/-- The fax message document of the C3 counterexample: one attachment path. -/
def faxDocC3 : MsgDoc :=
  { messageType := some "fax", subject := some "S", fromAddr := none,
    toAddr := none, snippet := some "sn", textPlain := none, textHtml := none,
    attachments := ["faxes/a.pdf"], ocrFullText := some "O",
    managementNo := none, mainPdfPath := none, main_pdf_path_snake := none,
    internalDate := some 1000, receivedAt := none, customerId := none,
    customerName := none }

/-- The Full-phase arguments of the C3 counterexample. -/
def faxArgsC3 : FullArgs :=
  ⟨"m1", some "A00001", none, some "faxes/a.pdf", none, some "O"⟩

/-- C3 (counterexample).  For a fax message the Full phase skips the
attachment-table replacement entirely (`if (!isFax)`): after running the Full
sync twice on a fax message with attachment path `"faxes/a.pdf"` starting
from an empty mirror, the message has **zero** attachment rows for that path,
not exactly one — refuting the claim "for every message, regardless of
message type". -/
theorem fullSync_twice_fax_attachments_missing :
    "faxes/a.pdf" ∈ faxDocC3.attachments ∧
    ((mirrorMessageToSupabaseFull faxArgsC3 (some faxDocC3) 0
        (mirrorMessageToSupabaseFull faxArgsC3 (some faxDocC3) 0
          Mirror.empty)).message_attachments.filter
      (fun r => r.message_id == "m1" && r.gcs_path == "faxes/a.pdf")).length
      = 0 := by
  exact ⟨by decide, by decide⟩

/-- C3 (amended).  For a **mail** message (any non-fax type) with pairwise
distinct attachment paths and an available management number, running the
Full-phase sync twice consecutively leaves exactly one attachment row per
current attachment path for the message, and no attachment row of the
message outside those paths; for fax messages the Full phase leaves the
attachment table untouched (see the counterexample). -/
theorem fullSync_twice_mail_attachments_once :
    ∀ (args : FullArgs) (data : MsgDoc) (now : Nat) (m : Mirror),
    (data.messageType == some "fax") = false →
    jsTruthyStr (finalMgmtNo args data) = true →
    data.attachments.Nodup →
    (∀ p ∈ data.attachments,
      ((mirrorMessageToSupabaseFull args (some data) now
          (mirrorMessageToSupabaseFull args (some data) now m)).message_attachments.filter
        (fun r => r.message_id == args.messageId && r.gcs_path == p)).length = 1) ∧
    (∀ r ∈ (mirrorMessageToSupabaseFull args (some data) now
        (mirrorMessageToSupabaseFull args (some data) now m)).message_attachments,
      r.message_id = args.messageId → r.gcs_path ∈ data.attachments) := by
  intro args data now m hfax hkey hnd
  have h1 := fullSync_mail_attachments_char args data now m hfax hkey
  have h2 := fullSync_mail_attachments_char args data now
    (mirrorMessageToSupabaseFull args (some data) now m) hfax hkey
  have hrows1 : (data.attachments.map (fun p =>
      (⟨(fullCasePhase args data now m).2, args.messageId, p,
        jsLastSegment p, none⟩ : AttachmentRow))).filter
      (fun r => r.message_id != args.messageId) = [] := by
    apply filter_none_of_all_false
    intro a ha
    rcases List.mem_map.mp ha with ⟨p, hp, rfl⟩
    simp
  have hfilter_s1 : (mirrorMessageToSupabaseFull args (some data) now
        m).message_attachments.filter (fun r => r.message_id != args.messageId) =
      m.message_attachments.filter (fun r => r.message_id != args.messageId) := by
    rw [h1, List.filter_append, filter_self_filter, hrows1, List.append_nil]
  rw [hfilter_s1] at h2
  constructor
  · intro p hp
    rw [h2, List.filter_append]
    have hleft : (m.message_attachments.filter
        (fun r => r.message_id != args.messageId)).filter
        (fun r => r.message_id == args.messageId && r.gcs_path == p) = [] := by
      apply filter_none_of_all_false
      intro a ha
      have hmem := List.mem_filter.mp ha
      have hne : a.message_id ≠ args.messageId := by
        simpa [bne_iff_ne] using hmem.2
      simp [hne]
    rw [hleft, List.nil_append, length_filter_map]
    show data.attachments.countP
      (fun x => (args.messageId == args.messageId) && (x == p)) = 1
    simp only [beq_self_eq_true, Bool.true_and]
    exact countP_beq_eq_one hnd hp
  · intro r hr hmsg
    rw [h2] at hr
    rcases List.mem_append.mp hr with hr | hr
    · have hmem := List.mem_filter.mp hr
      have hne : r.message_id ≠ args.messageId := by
        simpa [bne_iff_ne] using hmem.2
      exact absurd hmsg hne
    · rcases List.mem_map.mp hr with ⟨p, hp, rfl⟩
      exact hp

/-- The mail message document of the C3 witness: two attachment paths. -/
def mailDocC3 : MsgDoc :=
  { messageType := some "mail", subject := some "S", fromAddr := none,
    toAddr := none, snippet := none, textPlain := some "hello",
    textHtml := none, attachments := ["att/x/a.pdf", "att/x/b.pdf"],
    ocrFullText := none, managementNo := none, mainPdfPath := none,
    main_pdf_path_snake := none, internalDate := some 1000, receivedAt := none,
    customerId := none, customerName := none }

/-- The Full-phase arguments of the C3 witness. -/
def mailArgsC3 : FullArgs := ⟨"m1", some "A00001", none, none, none, none⟩

/-- Witness for `fullSync_twice_mail_attachments_once` at concrete inputs. -/
theorem fullSync_twice_mail_attachments_once_witness :
    ((mirrorMessageToSupabaseFull mailArgsC3 (some mailDocC3) 0
        (mirrorMessageToSupabaseFull mailArgsC3 (some mailDocC3) 0
          Mirror.empty)).message_attachments.filter
      (fun r => r.message_id == mailArgsC3.messageId &&
        r.gcs_path == "att/x/a.pdf")).length = 1 := by
  have h := fullSync_twice_mail_attachments_once mailArgsC3 mailDocC3 0
    Mirror.empty (by decide) (by decide) (by decide)
  exact h.1 "att/x/a.pdf" (by decide)

/-- The fax message document of the C4 scenario. -/
def faxDocC4 : MsgDoc :=
  { messageType := some "fax", subject := some "title1", fromAddr := some "a",
    toAddr := some "b", snippet := some "snippet text", textPlain := none,
    textHtml := none, attachments := [], ocrFullText := some "OCR FULL",
    managementNo := none, mainPdfPath := none, main_pdf_path_snake := none,
    internalDate := some 1000, receivedAt := none, customerId := some "c1",
    customerName := some "Acme" }

/-- The Full-phase arguments of the C4 scenario. -/
def fullArgsC4 : FullArgs :=
  ⟨"m1", some "A00001", some ⟨some "c1", some "Acme"⟩, some "faxes/a.pdf",
    none, some "OCR FULL"⟩

/-- The mirror after running the Full phase first (no Basic phase ran). -/
def mirrorAfterFullC4 : Mirror :=
  mirrorMessageToSupabaseFull fullArgsC4 (some faxDocC4) 0 Mirror.empty

/-- The mirror after running the Basic phase on top of the completed Full
phase. -/
def mirrorAfterFullThenBasicC4 : Mirror :=
  mirrorMessageToSupabaseBasic "m1" (some faxDocC4) 0 mirrorAfterFullC4

/-- C4.  Running the Full phase before the Basic phase is safe: Full
re-ensures the case (a case row exists under the final key, and the message
row carries the finalized OCR body, `fax_ocr` body type and the
primary-document path).  But a Basic run arriving *after* Full is not
guarded: it overwrites the finalized message fields with provisional values
(snippet body, `fax_basic` body type, null primary-document path). -/
theorem basic_after_full_regresses :
    (findCaseByManagementNo mirrorAfterFullC4 "A00001").isSome = true ∧
    ((mirrorAfterFullC4.messages.find? (fun r => r.id == "m1")).map
      (fun r => (r.body_type, r.body_text, r.main_pdf_path))) =
      some ("fax_ocr", "OCR FULL", some "faxes/a.pdf") ∧
    ((mirrorAfterFullThenBasicC4.messages.find? (fun r => r.id == "m1")).map
      (fun r => (r.body_type, r.body_text, r.main_pdf_path))) =
      some ("fax_basic", "snippet text", none) := by
  exact ⟨by decide, by decide, by decide⟩

/-! ## Batch re-processing worker (`src/processBatch.js`, lines 18-49)

The `/gmail/process-batch` route: select up to
`Math.min(Number(req.query.limit || 2), 10)` message rows with
`processed_at` null and `processing_at` null or older than the 10-minute lock
window, ordered by `received_at` descending, and stamp
`processing_at = now` (plus `ocr_status = "processing"`, `ocr_error = null`)
on each selected row (the update is additionally guarded by
`processed_at` still being null) before processing it.  The descending
`received_at` ordering of the store is modelled by an insertion sort; the
per-message processing body (OCR, rendering — external I/O) is outside the
claim and not modelled.
-/

/-- A `messages` row as seen by the batch worker. -/
structure BatchMsgRow where
  id : String
  case_id : Option Nat
  message_type : Option String
  subject : Option String
  body_text : Option String
  body_html : Option String
  from_email : Option String
  to_email : Option String
  received_at : Nat
  main_pdf_path : Option String
  processed_at : Option Nat
  processing_at : Option Nat
  ocr_status : Option String
  ocr_error : Option String
  deriving DecidableEq, Repr

/-- The lock window `lockMinutes = 10`, in milliseconds. -/
def lockWindowMs : Nat := 10 * 60 * 1000

/-- The row filter of the batch select:
`.is("processed_at", null).or(processing_at.is.null,processing_at.lt.<now - lock window>)`. -/
def eligibleRow (now : Nat) (r : BatchMsgRow) : Bool :=
  match r.processed_at with
  | some _ => false
  | none =>
    match r.processing_at with
    | none => true
    | some t => decide (t < now - lockWindowMs)

/-- Insert a row into a list sorted by `received_at` descending. -/
def insertByRecvDesc (r : BatchMsgRow) : List BatchMsgRow → List BatchMsgRow
  | [] => [r]
  | x :: t =>
    if x.received_at < r.received_at then r :: x :: t
    else x :: insertByRecvDesc r t

/-- Embeds `ORDER BY received_at DESC`. -/
def sortByRecvDesc : List BatchMsgRow → List BatchMsgRow
  | [] => []
  | x :: t => insertByRecvDesc x (sortByRecvDesc t)

/-- The batch select: filter, order descending, `limit(Math.min(limit, 10))`. -/
def selectBatch (rows : List BatchMsgRow) (reqLimit now : Nat) :
    List BatchMsgRow :=
  (sortByRecvDesc (rows.filter (eligibleRow now))).take (min reqLimit 10)

/-- The column values written by the per-row lock update. -/
def lockFieldsRow (now : Nat) (r : BatchMsgRow) : BatchMsgRow :=
  { r with processing_at := some now, ocr_status := some "processing",
           ocr_error := none }

/-- The per-row lock update:
`.update({processing_at: nowIso, ocr_status: "processing", ocr_error: null}).eq("id", m.id).is("processed_at", null)`. -/
def lockRow (rows : List BatchMsgRow) (i : String) (now : Nat) :
    List BatchMsgRow :=
  rows.map (fun r =>
    if r.id == i && r.processed_at == none then lockFieldsRow now r else r)

/-- The lock updates issued by the worker loop, in selection order. -/
def stampBatch (rows : List BatchMsgRow) (ids : List String) (now : Nat) :
    List BatchMsgRow :=
  ids.foldl (fun acc i => lockRow acc i now) rows

theorem mem_insertByRecvDesc {a r : BatchMsgRow} :
    ∀ {l : List BatchMsgRow}, a ∈ insertByRecvDesc r l ↔ a = r ∨ a ∈ l := by
  intro l
  induction l with
  | nil => simp [insertByRecvDesc]
  | cons x t ih =>
    unfold insertByRecvDesc
    by_cases h : x.received_at < r.received_at
    · simp [h]
    · simp only [h, if_false, List.mem_cons, ih]
      tauto

theorem mem_sortByRecvDesc {a : BatchMsgRow} :
    ∀ {l : List BatchMsgRow}, a ∈ sortByRecvDesc l ↔ a ∈ l := by
  intro l
  induction l with
  | nil => simp [sortByRecvDesc]
  | cons x t ih =>
    simp [sortByRecvDesc, mem_insertByRecvDesc, ih]

theorem selectBatch_mem {rows : List BatchMsgRow} {reqLimit now : Nat}
    {r : BatchMsgRow} (h : r ∈ selectBatch rows reqLimit now) :
    eligibleRow now r = true ∧ r ∈ rows := by
  have h1 : r ∈ sortByRecvDesc (rows.filter (eligibleRow now)) :=
    List.mem_of_mem_take h
  have h2 : r ∈ rows.filter (eligibleRow now) := mem_sortByRecvDesc.mp h1
  have h3 := List.mem_filter.mp h2
  exact ⟨h3.2, h3.1⟩

theorem eligible_processed_none {now : Nat} {r : BatchMsgRow}
    (h : eligibleRow now r = true) : r.processed_at = none := by
  unfold eligibleRow at h
  cases hp : r.processed_at with
  | none => rfl
  | some t =>
    rw [hp] at h
    cases h

theorem stampBatch_eq_map :
    ∀ (ids : List String) (rows : List BatchMsgRow) (now : Nat),
    stampBatch rows ids now = rows.map (fun r =>
      if r.id ∈ ids ∧ r.processed_at = none then lockFieldsRow now r
      else r) := by
  intro ids
  induction ids with
  | nil =>
    intro rows now
    simp [stampBatch]
  | cons i ids ih =>
    intro rows now
    show stampBatch (lockRow rows i now) ids now = _
    rw [ih]
    unfold lockRow
    rw [List.map_map]
    apply List.map_congr_left
    intro r _
    simp only [Function.comp_apply]
    by_cases h1 : r.id = i
    · by_cases h2 : r.processed_at = none
      · by_cases h3 : r.id ∈ ids
        · simp [lockFieldsRow, h1, h2, h3]
        · simp [lockFieldsRow, h1, h2, h3]
      · simp [h1, h2]
    · by_cases h4 : r.id ∈ ids
      · by_cases h2 : r.processed_at = none
        · simp [lockFieldsRow, h1, h2, h4]
        · simp [h1, h2, h4]
      · simp [h1, h4]

/-- C9.  The batch re-processing worker selects at most
`min(limit, 10)` message rows, each satisfying "`processed_at` is null and
`processing_at` is null or older than the lock window", and the lock pass
stamps `processing_at = now` on every selected row (the stamped version of
each selected row is present after the lock updates, which precede the
processing of the rows). -/
theorem batch_select_and_stamp :
    ∀ (rows : List BatchMsgRow) (reqLimit now : Nat),
    (selectBatch rows reqLimit now).length ≤ min reqLimit 10 ∧
    (∀ r ∈ selectBatch rows reqLimit now, eligibleRow now r = true) ∧
    (∀ r ∈ selectBatch rows reqLimit now,
      lockFieldsRow now r ∈ stampBatch rows
        ((selectBatch rows reqLimit now).map (fun x => x.id)) now) := by
  intro rows reqLimit now
  refine ⟨?_, ?_, ?_⟩
  · unfold selectBatch
    rw [List.length_take]
    exact Nat.min_le_left _ _
  · intro r hr
    exact (selectBatch_mem hr).1
  · intro r hr
    obtain ⟨helig, hrows⟩ := selectBatch_mem hr
    rw [stampBatch_eq_map]
    have hcond : r.id ∈ (selectBatch rows reqLimit now).map (fun x => x.id) ∧
        r.processed_at = none :=
      ⟨List.mem_map_of_mem _ hr, eligible_processed_none helig⟩
    have hmem := List.mem_map_of_mem (fun r =>
      if r.id ∈ (selectBatch rows reqLimit now).map (fun x => x.id) ∧
        r.processed_at = none then lockFieldsRow now r else r) hrows
    simpa [hcond.1, hcond.2] using hmem

/-- Concrete rows for the C9 witness: one never-processed row, one row with a
stale lock, one row already processed. -/
def batchRowsC9 : List BatchMsgRow :=
  [⟨"m1", none, some "fax", none, none, none, none, none, 2000, none,
      none, none, none, none⟩,
   ⟨"m2", none, some "mail", none, none, none, none, none, 1000, none,
      none, some 3000, none, none⟩,
   ⟨"m3", none, some "mail", none, none, none, none, none, 3000, none,
      some 5000, none, none, none⟩]

/-- Witness for `batch_select_and_stamp` at concrete inputs. -/
theorem batch_select_and_stamp_witness :
    (selectBatch batchRowsC9 2 10000000).length ≤ min 2 10 ∧
    eligibleRow 10000000 (batchRowsC9.get ⟨0, by decide⟩) = true ∧
    lockFieldsRow 10000000 (batchRowsC9.get ⟨0, by decide⟩) ∈
      stampBatch batchRowsC9
        ((selectBatch batchRowsC9 2 10000000).map (fun x => x.id)) 10000000 := by
  have h := batch_select_and_stamp batchRowsC9 2 10000000
  have hmem : batchRowsC9.get ⟨0, by decide⟩ ∈ selectBatch batchRowsC9 2 10000000 := by
    decide
  exact ⟨h.1, h.2.1 _ hmem, h.2.2 _ hmem⟩

end AkiyamaOrder
